import Mathlib

/-!
# ATtiny167 / ATtiny87 pin mapping (`avr/variants/tinyX7_New/pins_arduino.h`)

A shallow embedding of the variant header: the pin constants, the function-like
lookup expressions and the three per-pin flash tables, followed by the
properties established about them.

Conventions of the embedding.

* The function-like lookups of the header take an arbitrary integer expression,
  so their argument is an `Int`.  None of the ranges used below comes near the
  limits of a 16-bit `int`, so the arithmetic is the mathematical one.
* A C conditional `c ? a : b` is `if c then a else b`; a C truth value is a `Bool`.
* The flash tables are lists of bytes, indexed with the `Option`-valued `xs[i]?`.
* Identifiers that the header uses but that the core defines elsewhere
  (`PA`, `PB`, the timer identifiers, `NOT_AN_INTERRUPT`) are the fields of
  `CoreDefs`; every statement that depends on their values says what it assumes.
-/

namespace TinyX7

/-! ## Identifiers supplied by the core -/

/-- Values of the identifiers that the variant file uses without defining them:
the port identifiers, the timer-channel identifiers and the "no interrupt" sentinel. -/
structure CoreDefs where
  PA : Nat
  PB : Nat
  NOT_ON_TIMER : Nat
  TIMER0A : Nat
  TIM1AU : Nat
  TIM1BU : Nat
  TIM1AV : Nat
  TIM1BV : Nat
  TIM1AW : Nat
  TIM1BW : Nat
  TIM1AX : Nat
  TIM1BX : Nat
  NOT_AN_INTERRUPT : Int

/-- Addresses the pin-change lookups can hand out.  `PCICR`, `PCMSK0` and `PCMSK1`
stand for `&PCICR`, `&PCMSK0` and `&PCMSK1`, the addresses of three distinct
special-function registers; `null` is the null pointer. -/
inductive RegPtr where
  | null
  | PCICR
  | PCMSK0
  | PCMSK1
  deriving DecidableEq

/-- The bit-value helper `_BV(bit)`, that is `1 << bit`. -/
def _BV (bit : Nat) : Nat := 1 <<< bit

/-! ## Pin counts and pin constants (lines 29 to 64) -/

def NUM_DIGITAL_PINS : Nat := 16
def NUM_ANALOG_INPUTS : Nat := 11

def PIN_PA0 : Int := 0
def PIN_PA1 : Int := 1
def PIN_PA2 : Int := 2
def PIN_PA3 : Int := 3
def PIN_PA4 : Int := 4
def PIN_PA5 : Int := 5
def PIN_PA6 : Int := 6
def PIN_PA7 : Int := 7
def PIN_PB0 : Int := 8
def PIN_PB1 : Int := 9
def PIN_PB2 : Int := 10
def PIN_PB3 : Int := 11
def PIN_PB4 : Int := 12
def PIN_PB5 : Int := 13
def PIN_PB6 : Int := 14
def PIN_PB7 : Int := 15

def LED_BUILTIN : Int := PIN_PA3

def PIN_A0 : Int := PIN_PA0
def PIN_A1 : Int := PIN_PA1
def PIN_A2 : Int := PIN_PA2
def PIN_A3 : Int := PIN_PA3
def PIN_A4 : Int := PIN_PA4
def PIN_A5 : Int := PIN_PA5
def PIN_A6 : Int := PIN_PA6
def PIN_A7 : Int := PIN_PA7
def PIN_A8 : Int := PIN_PB5
def PIN_A9 : Int := PIN_PB6
def PIN_A10 : Int := PIN_PB7

/-- The aliases `PIN_A0 .. PIN_A10` in the order of their index, so that
`PIN_A[k]?` is the alias `PIN_Ak`. -/
def PIN_A : List Int :=
  [PIN_A0, PIN_A1, PIN_A2, PIN_A3, PIN_A4, PIN_A5, PIN_A6, PIN_A7, PIN_A8, PIN_A9, PIN_A10]

/-! ## Pin-change and external interrupt lookups (lines 88 to 93) -/

/-- Source: `#define digitalPinToPCICR(p)    (&PCICR)` -/
def digitalPinToPCICR (_p : Int) : RegPtr := RegPtr.PCICR

/-- Source: `#define digitalPinToPCICRbit(p) ((p) >= 8 ? 1 : 0)` -/
def digitalPinToPCICRbit (p : Int) : Int := if p ≥ 8 then 1 else 0

/-- Source: `#define digitalPinToPCMSK(p)    ((p) >= 8 ?(&PCMSK1) : (&PCMSK0))` -/
def digitalPinToPCMSK (p : Int) : RegPtr := if p ≥ 8 then RegPtr.PCMSK1 else RegPtr.PCMSK0

/-- Source: `#define digitalPinToPCMSKbit(p) (p & 15)` -/
def digitalPinToPCMSKbit (p : Int) : Int := Int.land p 15

/-- Source: `#define digitalPinToInterrupt(p)  ((p) == PIN_PB6 ? 0 : ((p)==PIN_PA3?1: NOT_AN_INTERRUPT))` -/
def digitalPinToInterrupt (k : CoreDefs) (p : Int) : Int :=
  if p = PIN_PB6 then 0 else (if p = PIN_PA3 then 1 else k.NOT_AN_INTERRUPT)

/-! ## Analog channel and digital pin (lines 96 and 97) -/

/-- Source: `#define analogInputToDigitalPin(p)  ((p) < 8 ? (p) :((p) + 5))` -/
def analogInputToDigitalPin (p : Int) : Int := if p < 8 then p else (p + 5)

/-- Source: `#define digitalPinToAnalogInput(p)  ((p) < 8 ? (p) : ((p) > 12 ? (p - 5) : (-1)))` -/
def digitalPinToAnalogInput (p : Int) : Int :=
  if p < 8 then p else (if p > 12 then (p - 5) else (-1))

/-! ## PWM (line 100) -/

/-- Source: `#define digitalPinHasPWM(p)     ((p) == 2 || (p) > 7 )` -/
def digitalPinHasPWM (p : Int) : Bool := (p == 2) || decide (p > 7)

/-! ## Special and differential analog channels (lines 144 to 165)

Each constant is `ADC_CH(n)` in the header; `ADC_CH` is defined by the core and is
a parameter here, `id` giving the raw channel number `n`. -/

def ADC_TEMPERATURE (ADC_CH : Int → Int) : Int := ADC_CH 0x0B
def ADC_INTERNAL1V1 (ADC_CH : Int → Int) : Int := ADC_CH 0x0C
def ADC_AVCCDIV4 (ADC_CH : Int → Int) : Int := ADC_CH 0x0D
def ADC_GROUND (ADC_CH : Int → Int) : Int := ADC_CH 0x0E

def DIFF_A0_A1_8X (ADC_CH : Int → Int) : Int := ADC_CH 0x10
def DIFF_A0_A1_20X (ADC_CH : Int → Int) : Int := ADC_CH 0x11
def DIFF_A1_A2_8X (ADC_CH : Int → Int) : Int := ADC_CH 0x12
def DIFF_A1_A2_20X (ADC_CH : Int → Int) : Int := ADC_CH 0x13
def DIFF_A2_A3_8X (ADC_CH : Int → Int) : Int := ADC_CH 0x14
def DIFF_A2_A3_20X (ADC_CH : Int → Int) : Int := ADC_CH 0x15
def DIFF_A4_A5_8X (ADC_CH : Int → Int) : Int := ADC_CH 0x16
def DIFF_A4_A5_20X (ADC_CH : Int → Int) : Int := ADC_CH 0x17
def DIFF_A5_A6_8X (ADC_CH : Int → Int) : Int := ADC_CH 0x18
def DIFF_A5_A6_20X (ADC_CH : Int → Int) : Int := ADC_CH 0x19
def DIFF_A6_A7_8X (ADC_CH : Int → Int) : Int := ADC_CH 0x1A
def DIFF_A6_A7_20X (ADC_CH : Int → Int) : Int := ADC_CH 0x1B
def DIFF_A8_A9_8X (ADC_CH : Int → Int) : Int := ADC_CH 0x1C
def DIFF_A8_A9_20X (ADC_CH : Int → Int) : Int := ADC_CH 0x1D
def DIFF_A9_A10_8X (ADC_CH : Int → Int) : Int := ADC_CH 0x1E
def DIFF_A9_A10_20X (ADC_CH : Int → Int) : Int := ADC_CH 0x1F

/-- All the special and differential channel constants of the header, in source order. -/
def specialChannels (ADC_CH : Int → Int) : List Int :=
  [ADC_TEMPERATURE ADC_CH, ADC_INTERNAL1V1 ADC_CH, ADC_AVCCDIV4 ADC_CH, ADC_GROUND ADC_CH,
   DIFF_A0_A1_8X ADC_CH, DIFF_A0_A1_20X ADC_CH, DIFF_A1_A2_8X ADC_CH, DIFF_A1_A2_20X ADC_CH,
   DIFF_A2_A3_8X ADC_CH, DIFF_A2_A3_20X ADC_CH, DIFF_A4_A5_8X ADC_CH, DIFF_A4_A5_20X ADC_CH,
   DIFF_A5_A6_8X ADC_CH, DIFF_A5_A6_20X ADC_CH, DIFF_A6_A7_8X ADC_CH, DIFF_A6_A7_20X ADC_CH,
   DIFF_A8_A9_8X ADC_CH, DIFF_A8_A9_20X ADC_CH, DIFF_A9_A10_8X ADC_CH, DIFF_A9_A10_20X ADC_CH]

/-! ## The per-pin flash tables (lines 255 to 313) -/

/-- Source: `const uint8_t PROGMEM digital_pin_to_port_PGM[]` -/
def digital_pin_to_port_PGM (k : CoreDefs) : List Nat :=
  [ k.PA, /- 0 -/
    k.PA,
    k.PA, /- 2 -/
    k.PA, /- 3 -/
    k.PA, /- 4 -/
    k.PA,
    k.PA,
    k.PA,
    k.PB,
    k.PB,
    k.PB, /- 10 -/
    k.PB,
    k.PB,
    k.PB,
    k.PB,
    k.PB  /- 15 -/ ]

/-- Source: `const uint8_t PROGMEM digital_pin_to_bit_mask_PGM[]` -/
def digital_pin_to_bit_mask_PGM : List Nat :=
  [ _BV 0, /- 0 -/
    _BV 1,
    _BV 2, /- 2 -/
    _BV 3, /- 3 -/
    _BV 4, /- 4 -/
    _BV 5,
    _BV 6,
    _BV 7,
    _BV 0,
    _BV 1,
    _BV 2, /- 10 -/
    _BV 3,
    _BV 4,
    _BV 5,
    _BV 6,
    _BV 7  /- 15 -/ ]

/-- Source: `const uint8_t PROGMEM digital_pin_to_timer_PGM[]` -/
def digital_pin_to_timer_PGM (k : CoreDefs) : List Nat :=
  [ k.NOT_ON_TIMER,
    k.NOT_ON_TIMER,
    k.TIMER0A,
    k.NOT_ON_TIMER,
    k.NOT_ON_TIMER,
    k.NOT_ON_TIMER,
    k.NOT_ON_TIMER,
    k.NOT_ON_TIMER,
    k.TIM1AU,
    k.TIM1BU,
    k.TIM1AV,
    k.TIM1BV,
    k.TIM1AW,
    k.TIM1BW,
    k.TIM1AX,
    k.TIM1BX ]

/-! ## Analog reference constants (lines 132 to 141) -/

/-- Source: `#define ADC_REF(x)       ((((x) & 0x03) << 6) | (((x) & 0x0C) >> 1)`, read
with the closing parenthesis that the line lacks put back at its end.  The
argument is a reference selector, a non-negative number. -/
def ADC_REF (x : Nat) : Nat := (((x &&& 0x03) <<< 6) ||| ((x &&& 0x0C) >>> 1))

def DEFAULT : Nat := ADC_REF 0x00
def EXTERNAL : Nat := ADC_REF 0x08
def INTERNAL1V1 : Nat := ADC_REF 0x02
def INTERNAL : Nat := INTERNAL1V1
def INTERNAL2V56 : Nat := ADC_REF 0x03
def INTERNAL1V1_XREF : Nat := ADC_REF 0x06
def INTERNAL2V56_XREF : Nat := ADC_REF 0x07

/-! ## USI pins, registers and bits (lines 189 to 199) -/

/-- The port registers the header names: data direction, output and input register
of port A and of port B. -/
inductive IOReg where
  | DDRA
  | DDRB
  | PORTA
  | PORTB
  | PINA
  | PINB
  deriving DecidableEq

/-- Bit number of bit 0 of the port B input register in the device header of the
toolchain. -/
def PINB0 : Nat := 0
/-- Bit number of bit 1 of the port B input register in the device header of the
toolchain. -/
def PINB1 : Nat := 1
/-- Bit number of bit 2 of the port B input register in the device header of the
toolchain. -/
def PINB2 : Nat := 2

def PIN_USI_DI : Int := PIN_PB0
def PIN_USI_DO : Int := PIN_PB1
def PIN_USI_SCK : Int := PIN_PB2

def USI_DATA_DDR : IOReg := IOReg.DDRB
def USI_DATA_PORT : IOReg := IOReg.PORTB
def USI_DATA_PIN : IOReg := IOReg.PINB

def USI_CLOCK_BIT : Nat := PINB2
def USI_DO_BIT : Nat := PINB1
def USI_DI_BIT : Nat := PINB0

/-! ## The pinout diagram (lines 218 to 231) -/

/-- The pin numbers that carry the mark `*`, "indicates PWM pin", in the pinout
diagram: `*( 2) PA2`, `PB3 (11)*` and `PB6 (14)*`. -/
def pwmMarkedPins : List Nat := [2, 11, 14]

/-- One assignment of the core identifiers, used to instantiate the statements
below: ports `PA = 1`, `PB = 2`, sentinel `NOT_ON_TIMER = 0`, pairwise distinct
non-zero timer identifiers and `NOT_AN_INTERRUPT = -1`. -/
def sampleDefs : CoreDefs where
  PA := 1
  PB := 2
  NOT_ON_TIMER := 0
  TIMER0A := 1
  TIM1AU := 0x10
  TIM1BU := 0x11
  TIM1AV := 0x12
  TIM1BV := 0x13
  TIM1AW := 0x14
  TIM1BW := 0x15
  TIM1AX := 0x16
  TIM1BX := 0x17
  NOT_AN_INTERRUPT := -1

/-! ## Table entries in closed form -/

theorem port_entry (k : CoreDefs) (p : Nat) (hp : p < 16) :
    (digital_pin_to_port_PGM k)[p]? = some (if p < 8 then k.PA else k.PB) := by
  interval_cases p <;> rfl

theorem bit_mask_entry (p : Nat) (hp : p < 16) :
    digital_pin_to_bit_mask_PGM[p]? = some (_BV (p % 8)) := by
  interval_cases p <;> rfl

theorem BV_inj_of_lt_eight : ∀ a < 8, ∀ b < 8, _BV a = _BV b → a = b := by
  decide

/-! ## Properties -/

/-- C1: for every analog channel `c` in `0..10`, mapping the channel to its
digital pin and the pin back to its channel returns `c`. -/
theorem analog_channel_round_trip (c : Int) (h0 : 0 ≤ c) (h1 : c < NUM_ANALOG_INPUTS) :
    digitalPinToAnalogInput (analogInputToDigitalPin c) = c := by
  simp only [NUM_ANALOG_INPUTS] at h1
  unfold digitalPinToAnalogInput analogInputToDigitalPin
  split_ifs <;> omega

theorem analog_channel_round_trip_witness :
    (0 : Int) ≤ 9 ∧ (9 : Int) < NUM_ANALOG_INPUTS ∧
      digitalPinToAnalogInput (analogInputToDigitalPin 9) = 9 :=
  ⟨by decide, by decide, analog_channel_round_trip 9 (by decide) (by decide)⟩

/-- C2: with `PA` and `PB` distinct port identifiers, any two different valid pin
indices have a port entry and a bit-mask entry each, and their (port, bit mask)
pairs differ. -/
theorem port_bit_pairs_distinct (k : CoreDefs) (hP : k.PA ≠ k.PB) (p q : Nat)
    (hp : p < NUM_DIGITAL_PINS) (hq : q < NUM_DIGITAL_PINS) (hpq : p ≠ q) :
    ∃ a b c d,
      (digital_pin_to_port_PGM k)[p]? = some a ∧ digital_pin_to_bit_mask_PGM[p]? = some b ∧
      (digital_pin_to_port_PGM k)[q]? = some c ∧ digital_pin_to_bit_mask_PGM[q]? = some d ∧
      (a, b) ≠ (c, d) := by
  simp only [NUM_DIGITAL_PINS] at hp hq
  refine ⟨_, _, _, _, port_entry k p hp, bit_mask_entry p hp, port_entry k q hq,
    bit_mask_entry q hq, ?_⟩
  intro h
  rw [Prod.mk.injEq] at h
  obtain ⟨hport, hmask⟩ := h
  have hmod : p % 8 = q % 8 :=
    BV_inj_of_lt_eight _ (Nat.mod_lt _ (by decide)) _ (Nat.mod_lt _ (by decide)) hmask
  have hP2 : k.PB ≠ k.PA := fun e => hP e.symm
  split_ifs at hport with h1 h2 h2
  · omega
  · exact hP hport
  · exact hP2 hport
  · omega

theorem port_bit_pairs_distinct_witness :
    sampleDefs.PA ≠ sampleDefs.PB ∧ (3 : Nat) < NUM_DIGITAL_PINS ∧ (11 : Nat) < NUM_DIGITAL_PINS ∧
      (3 : Nat) ≠ 11 ∧
      ∃ a b c d,
        (digital_pin_to_port_PGM sampleDefs)[3]? = some a ∧
        digital_pin_to_bit_mask_PGM[3]? = some b ∧
        (digital_pin_to_port_PGM sampleDefs)[11]? = some c ∧
        digital_pin_to_bit_mask_PGM[11]? = some d ∧ (a, b) ≠ (c, d) :=
  ⟨by decide, by decide, by decide, by decide,
    port_bit_pairs_distinct sampleDefs (by decide) 3 11 (by decide) (by decide) (by decide)⟩

/-- C3: the bit returned by `digitalPinToPCMSKbit` is not a bit of the 8-bit mask
register for the pins of port B.  On the valid pins the lookup returns the pin
index itself; at pin 8 it returns 8 although the selected register is `PCMSK1`
and the bit mask of the pin is `1`; the returned bit lies in `0..7` and matches the
bit-mask table exactly for the pins below 8. -/
theorem pcmsk_bit_exceeds_register_on_port_b :
    (∀ p : Fin 16, digitalPinToPCMSKbit (p.val : Int) = (p.val : Int)) ∧
    digitalPinToPCMSKbit 8 = 8 ∧ ¬ (digitalPinToPCMSKbit 8 ≤ 7) ∧
    digitalPinToPCMSK 8 = RegPtr.PCMSK1 ∧
    digital_pin_to_bit_mask_PGM[8]? = some 1 ∧
    1 <<< (digitalPinToPCMSKbit 8).toNat = 256 ∧
    (∀ p : Fin 16,
      ((0 ≤ digitalPinToPCMSKbit (p.val : Int) ∧ digitalPinToPCMSKbit (p.val : Int) ≤ 7 ∧
        some (1 <<< (digitalPinToPCMSKbit (p.val : Int)).toNat)
          = digital_pin_to_bit_mask_PGM[p.val]?) ↔ p.val < 8)) := by
  refine ⟨by decide, by decide, by decide, by decide, by decide, by decide, by decide⟩

/-- C4: when `NOT_ON_TIMER` differs from every timer-channel identifier, a valid pin
index has a timer entry, and `digitalPinHasPWM` is true exactly when that entry is
not `NOT_ON_TIMER`; pin 2 has PWM on `TIMER0A` and pin 0 has none. -/
theorem has_pwm_iff_on_timer (k : CoreDefs)
    (hT : ∀ t ∈ [k.TIMER0A, k.TIM1AU, k.TIM1BU, k.TIM1AV, k.TIM1BV, k.TIM1AW, k.TIM1BW,
      k.TIM1AX, k.TIM1BX], t ≠ k.NOT_ON_TIMER)
    (p : Nat) (hp : p < NUM_DIGITAL_PINS) :
    (∃ t, (digital_pin_to_timer_PGM k)[p]? = some t ∧
      (digitalPinHasPWM (p : Int) = true ↔ t ≠ k.NOT_ON_TIMER)) ∧
    ((digital_pin_to_timer_PGM k)[2]? = some k.TIMER0A ∧ digitalPinHasPWM 2 = true) ∧
    ((digital_pin_to_timer_PGM k)[0]? = some k.NOT_ON_TIMER ∧ digitalPinHasPWM 0 = false) := by
  simp only [NUM_DIGITAL_PINS] at hp
  simp only [List.mem_cons, List.mem_singleton, List.not_mem_nil, or_false, forall_eq_or_imp,
    forall_eq] at hT
  obtain ⟨h0a, h1au, h1bu, h1av, h1bv, h1aw, h1bw, h1ax, h1bx⟩ := hT
  refine ⟨?_, ⟨rfl, by decide⟩, ⟨rfl, by decide⟩⟩
  interval_cases p
  · exact ⟨k.NOT_ON_TIMER, rfl, by simp [digitalPinHasPWM]⟩
  · exact ⟨k.NOT_ON_TIMER, rfl, by simp [digitalPinHasPWM]⟩
  · exact ⟨k.TIMER0A, rfl, by simp [digitalPinHasPWM, h0a]⟩
  · exact ⟨k.NOT_ON_TIMER, rfl, by simp [digitalPinHasPWM]⟩
  · exact ⟨k.NOT_ON_TIMER, rfl, by simp [digitalPinHasPWM]⟩
  · exact ⟨k.NOT_ON_TIMER, rfl, by simp [digitalPinHasPWM]⟩
  · exact ⟨k.NOT_ON_TIMER, rfl, by simp [digitalPinHasPWM]⟩
  · exact ⟨k.NOT_ON_TIMER, rfl, by simp [digitalPinHasPWM]⟩
  · exact ⟨k.TIM1AU, rfl, by simp [digitalPinHasPWM, h1au]⟩
  · exact ⟨k.TIM1BU, rfl, by simp [digitalPinHasPWM, h1bu]⟩
  · exact ⟨k.TIM1AV, rfl, by simp [digitalPinHasPWM, h1av]⟩
  · exact ⟨k.TIM1BV, rfl, by simp [digitalPinHasPWM, h1bv]⟩
  · exact ⟨k.TIM1AW, rfl, by simp [digitalPinHasPWM, h1aw]⟩
  · exact ⟨k.TIM1BW, rfl, by simp [digitalPinHasPWM, h1bw]⟩
  · exact ⟨k.TIM1AX, rfl, by simp [digitalPinHasPWM, h1ax]⟩
  · exact ⟨k.TIM1BX, rfl, by simp [digitalPinHasPWM, h1bx]⟩

theorem has_pwm_iff_on_timer_witness :
    (∀ t ∈ [sampleDefs.TIMER0A, sampleDefs.TIM1AU, sampleDefs.TIM1BU, sampleDefs.TIM1AV,
      sampleDefs.TIM1BV, sampleDefs.TIM1AW, sampleDefs.TIM1BW, sampleDefs.TIM1AX,
      sampleDefs.TIM1BX], t ≠ sampleDefs.NOT_ON_TIMER) ∧
    (11 : Nat) < NUM_DIGITAL_PINS ∧
    (∃ t, (digital_pin_to_timer_PGM sampleDefs)[11]? = some t ∧
      (digitalPinHasPWM 11 = true ↔ t ≠ sampleDefs.NOT_ON_TIMER)) ∧
    ((digital_pin_to_timer_PGM sampleDefs)[2]? = some sampleDefs.TIMER0A ∧
      digitalPinHasPWM 2 = true) ∧
    ((digital_pin_to_timer_PGM sampleDefs)[0]? = some sampleDefs.NOT_ON_TIMER ∧
      digitalPinHasPWM 0 = false) :=
  ⟨by decide, by decide, has_pwm_iff_on_timer sampleDefs (by decide) 11 (by decide)⟩

/-- C5: when `NOT_AN_INTERRUPT` differs from 0 and from 1, `digitalPinToInterrupt`
gives a value other than the sentinel exactly at `PIN_PB6 = 14` and `PIN_PA3 = 3`,
where it gives interrupt 0 and interrupt 1; every other integer, pin 0 among them,
gives `NOT_AN_INTERRUPT`. -/
theorem interrupt_only_on_two_pins (k : CoreDefs) (h0 : k.NOT_AN_INTERRUPT ≠ 0)
    (h1 : k.NOT_AN_INTERRUPT ≠ 1) (p : Int) :
    (digitalPinToInterrupt k p ≠ k.NOT_AN_INTERRUPT ↔ (p = 14 ∨ p = 3)) ∧
    (p ≠ 14 → p ≠ 3 → digitalPinToInterrupt k p = k.NOT_AN_INTERRUPT) ∧
    PIN_PB6 = 14 ∧ digitalPinToInterrupt k 14 = 0 ∧
    PIN_PA3 = 3 ∧ digitalPinToInterrupt k 3 = 1 ∧
    digitalPinToInterrupt k 0 = k.NOT_AN_INTERRUPT := by
  have e14 : digitalPinToInterrupt k 14 = 0 := by simp [digitalPinToInterrupt, PIN_PB6]
  have e3 : digitalPinToInterrupt k 3 = 1 := by
    simp [digitalPinToInterrupt, PIN_PB6, PIN_PA3]
  have eo : ∀ q : Int, q ≠ 14 → q ≠ 3 → digitalPinToInterrupt k q = k.NOT_AN_INTERRUPT := by
    intro q hq14 hq3
    simp [digitalPinToInterrupt, PIN_PB6, PIN_PA3, hq14, hq3]
  refine ⟨?_, eo p, rfl, e14, rfl, e3, eo 0 (by decide) (by decide)⟩
  constructor
  · intro hne
    by_contra hcon
    push_neg at hcon
    exact hne (eo p hcon.1 hcon.2)
  · rintro (rfl | rfl)
    · rw [e14]; exact fun e => h0 e.symm
    · rw [e3]; exact fun e => h1 e.symm

theorem interrupt_only_on_two_pins_witness :
    sampleDefs.NOT_AN_INTERRUPT ≠ 0 ∧ sampleDefs.NOT_AN_INTERRUPT ≠ 1 ∧
      digitalPinToInterrupt sampleDefs 14 ≠ sampleDefs.NOT_AN_INTERRUPT ∧
      digitalPinToInterrupt sampleDefs 14 = 0 ∧
      digitalPinToInterrupt sampleDefs 0 = sampleDefs.NOT_AN_INTERRUPT :=
  ⟨by decide, by decide,
    (interrupt_only_on_two_pins sampleDefs (by decide) (by decide) 14).1.mpr (Or.inl rfl),
    (interrupt_only_on_two_pins sampleDefs (by decide) (by decide) 14).2.2.2.1,
    (interrupt_only_on_two_pins sampleDefs (by decide) (by decide) 14).2.2.2.2.2.2⟩

/-- C6: on a valid pin index `p`, `digitalPinToAnalogInput p` is `p` below 8, `p - 5`
from 13 to 15 and the sentinel `-1` from 8 to 12; pin 13 carries channel 8. -/
theorem pin_to_channel_by_range (p : Int) (h0 : 0 ≤ p) (h1 : p < NUM_DIGITAL_PINS) :
    (p < 8 → digitalPinToAnalogInput p = p) ∧
    (13 ≤ p → p ≤ 15 → digitalPinToAnalogInput p = p - 5) ∧
    (8 ≤ p → p ≤ 12 → digitalPinToAnalogInput p = -1) ∧
    digitalPinToAnalogInput 13 = 8 := by
  simp only [NUM_DIGITAL_PINS] at h1
  refine ⟨?_, ?_, ?_, by decide⟩
  · intro h
    unfold digitalPinToAnalogInput
    rw [if_pos h]
  · intro ha hb
    unfold digitalPinToAnalogInput
    split_ifs <;> omega
  · intro ha hb
    unfold digitalPinToAnalogInput
    split_ifs <;> omega

theorem pin_to_channel_by_range_witness :
    (0 : Int) ≤ 14 ∧ (14 : Int) < NUM_DIGITAL_PINS ∧ digitalPinToAnalogInput 14 = 14 - 5 ∧
      digitalPinToAnalogInput 13 = 8 :=
  ⟨by decide, by decide,
    (pin_to_channel_by_range 14 (by decide) (by decide)).2.1 (by decide) (by decide),
    (pin_to_channel_by_range 14 (by decide) (by decide)).2.2.2⟩

/-- C7: taking every special and differential channel constant as its raw channel
number (`0x0B`, `0x0C`, `0x0D`, `0x0E` and `0x10 .. 0x1F`), `analogInputToDigitalPin`
of such a channel is not a valid digital pin index. -/
theorem special_channel_has_no_pin (c : Int) (hc : c ∈ specialChannels id) :
    ¬ (0 ≤ analogInputToDigitalPin c ∧ analogInputToDigitalPin c < NUM_DIGITAL_PINS) ∧
    specialChannels id
      = [0x0B, 0x0C, 0x0D, 0x0E] ++ (List.range 16).map (fun i => (0x10 : Int) + i) := by
  have hall : ∀ d ∈ specialChannels id,
      ¬ (0 ≤ analogInputToDigitalPin d ∧ analogInputToDigitalPin d < NUM_DIGITAL_PINS) := by
    decide
  exact ⟨hall c hc, by decide⟩

theorem special_channel_has_no_pin_witness :
    (0x0B : Int) ∈ specialChannels id ∧
      ¬ (0 ≤ analogInputToDigitalPin 0x0B ∧ analogInputToDigitalPin 0x0B < NUM_DIGITAL_PINS) :=
  ⟨by decide, (special_channel_has_no_pin 0x0B (by decide)).1⟩

/-- C8, as stated, fails: 16 is an invalid pin index, and `digitalPinToPCMSK 16` is
the address of `PCMSK1`, not the null pointer; so it is not the case that every
invalid pin index gives the null pointer. -/
theorem pcmsk_not_null_at_pin_16 :
    (NUM_DIGITAL_PINS : Int) ≤ 16 ∧ digitalPinToPCMSK 16 = RegPtr.PCMSK1 ∧
    digitalPinToPCMSK 16 ≠ RegPtr.null ∧
    ¬ (∀ p : Int, (NUM_DIGITAL_PINS : Int) ≤ p → digitalPinToPCMSK p = RegPtr.null) := by
  refine ⟨by decide, by decide, by decide, ?_⟩
  intro h
  have h16 : digitalPinToPCMSK 16 = RegPtr.null := h 16 (by decide)
  revert h16
  decide

/-- C8, amended: for every invalid pin index `p`, that is `p` from
`NUM_DIGITAL_PINS = 16` up, `digitalPinToPCMSK p` is the address of `PCMSK1`, which
is neither the null pointer nor the address of `PCMSK0`. -/
theorem pcmsk_of_invalid_pin_is_pcmsk1 (p : Int) (hp : (NUM_DIGITAL_PINS : Int) ≤ p) :
    digitalPinToPCMSK p = RegPtr.PCMSK1 ∧ digitalPinToPCMSK p ≠ RegPtr.null ∧
    digitalPinToPCMSK p ≠ RegPtr.PCMSK0 := by
  simp only [NUM_DIGITAL_PINS] at hp
  have h8 : p ≥ 8 := by
    have h16 : (16 : Int) ≤ p := by exact_mod_cast hp
    omega
  have hval : digitalPinToPCMSK p = RegPtr.PCMSK1 := by
    unfold digitalPinToPCMSK
    rw [if_pos h8]
  rw [hval]
  exact ⟨rfl, by decide, by decide⟩

theorem pcmsk_of_invalid_pin_is_pcmsk1_witness :
    (NUM_DIGITAL_PINS : Int) ≤ 20 ∧ digitalPinToPCMSK 20 = RegPtr.PCMSK1 ∧
      digitalPinToPCMSK 20 ≠ RegPtr.null ∧ digitalPinToPCMSK 20 ≠ RegPtr.PCMSK0 :=
  ⟨by decide, pcmsk_of_invalid_pin_is_pcmsk1 20 (by decide)⟩

/-- C9: on a valid pin index the pin-change lookups split the pins at 8: below 8 the
mask register is `PCMSK0` and the control bit 0, from 8 up the mask register is
`PCMSK1` and the control bit 1; the control register is `PCICR` throughout; and,
with `PA` and `PB` distinct, the group is group 0 exactly when the port entry of
the pin is `PA` and group 1 exactly when it is `PB`. -/
theorem pcint_groups_split_at_eight (k : CoreDefs) (hP : k.PA ≠ k.PB) (p : Nat)
    (hp : p < NUM_DIGITAL_PINS) :
    (p < 8 → digitalPinToPCMSK (p : Int) = RegPtr.PCMSK0 ∧ digitalPinToPCICRbit (p : Int) = 0) ∧
    (8 ≤ p → digitalPinToPCMSK (p : Int) = RegPtr.PCMSK1 ∧ digitalPinToPCICRbit (p : Int) = 1) ∧
    digitalPinToPCICR (p : Int) = RegPtr.PCICR ∧
    (digitalPinToPCICRbit (p : Int) = 0 ↔ (digital_pin_to_port_PGM k)[p]? = some k.PA) ∧
    (digitalPinToPCMSK (p : Int) = RegPtr.PCMSK0 ↔ (digital_pin_to_port_PGM k)[p]? = some k.PA) ∧
    (digitalPinToPCICRbit (p : Int) = 1 ↔ (digital_pin_to_port_PGM k)[p]? = some k.PB) ∧
    (digitalPinToPCMSK (p : Int) = RegPtr.PCMSK1 ↔ (digital_pin_to_port_PGM k)[p]? = some k.PB) := by
  simp only [NUM_DIGITAL_PINS] at hp
  have hP2 : k.PB ≠ k.PA := fun e => hP e.symm
  rw [port_entry k p hp]
  unfold digitalPinToPCMSK digitalPinToPCICRbit digitalPinToPCICR
  by_cases h8 : p < 8
  · have hi : ¬ ((p : Int) ≥ 8) := by omega
    simp [h8, hi, hP]
  · have hi : (p : Int) ≥ 8 := by omega
    have h8b : 8 ≤ p := by omega
    simp [h8, hi, hP2, h8b]

theorem pcint_groups_split_at_eight_witness :
    sampleDefs.PA ≠ sampleDefs.PB ∧ (9 : Nat) < NUM_DIGITAL_PINS ∧
      digitalPinToPCMSK 9 = RegPtr.PCMSK1 ∧ digitalPinToPCICRbit 9 = 1 ∧
      digitalPinToPCICR 9 = RegPtr.PCICR ∧
      (digitalPinToPCICRbit 9 = 1 ↔ (digital_pin_to_port_PGM sampleDefs)[9]? = some sampleDefs.PB) :=
  ⟨by decide, by decide,
    ((pcint_groups_split_at_eight sampleDefs (by decide) 9 (by decide)).2.1 (by decide)).1,
    ((pcint_groups_split_at_eight sampleDefs (by decide) 9 (by decide)).2.1 (by decide)).2,
    (pcint_groups_split_at_eight sampleDefs (by decide) 9 (by decide)).2.2.1,
    (pcint_groups_split_at_eight sampleDefs (by decide) 9 (by decide)).2.2.2.2.2.1⟩

/-- C10: for every `n` in `0..10` the alias `PIN_An` is `analogInputToDigitalPin n`
and `digitalPinToAnalogInput` of it is `n`; the aliases are the pins 0 to 7, then
13, 14 and 15. -/
theorem analog_alias_is_channel_pin (n : Nat) (hn : n < NUM_ANALOG_INPUTS) :
    (∃ pin, PIN_A[n]? = some pin ∧ pin = analogInputToDigitalPin (n : Int) ∧
      digitalPinToAnalogInput pin = (n : Int)) ∧
    PIN_A = [0, 1, 2, 3, 4, 5, 6, 7, 13, 14, 15] := by
  simp only [NUM_ANALOG_INPUTS] at hn
  refine ⟨?_, by decide⟩
  interval_cases n <;> exact ⟨_, rfl, by decide, by decide⟩

theorem analog_alias_is_channel_pin_witness :
    (8 : Nat) < NUM_ANALOG_INPUTS ∧
      (∃ pin, PIN_A[8]? = some pin ∧ pin = analogInputToDigitalPin 8 ∧
        digitalPinToAnalogInput pin = 8) ∧
      PIN_A = [0, 1, 2, 3, 4, 5, 6, 7, 13, 14, 15] :=
  ⟨by decide, analog_alias_is_channel_pin 8 (by decide)⟩

/-- C11: with `ADC_REF(x)` read as `((x & 0x03) << 6) | ((x & 0x0C) >> 1)`, for every
`x` in `0..15` the result fits in 8 bits and has no bit outside `0xC6`, the two low
bits of `x` are bits 7:6 of it and the two high bits are bits 2:1, and `x` is
recovered as `((r >> 6) & 0x03) | ((r << 1) & 0x0C)`; the six reference constants
are `0x00, 0x04, 0x80, 0xC0, 0x82, 0xC2`, pairwise distinct. -/
theorem adc_ref_encoding (x : Nat) (hx : x < 16) :
    ADC_REF x < 256 ∧
    ADC_REF x &&& 0xC6 = ADC_REF x ∧
    (ADC_REF x >>> 6) &&& 0x03 = x &&& 0x03 ∧
    (ADC_REF x >>> 1) &&& 0x03 = x >>> 2 ∧
    (((ADC_REF x >>> 6) &&& 0x03) ||| ((ADC_REF x <<< 1) &&& 0x0C)) = x ∧
    [DEFAULT, EXTERNAL, INTERNAL1V1, INTERNAL2V56, INTERNAL1V1_XREF, INTERNAL2V56_XREF]
      = [0x00, 0x04, 0x80, 0xC0, 0x82, 0xC2] ∧
    [DEFAULT, EXTERNAL, INTERNAL1V1, INTERNAL2V56, INTERNAL1V1_XREF,
      INTERNAL2V56_XREF].Nodup := by
  have hall : ∀ y : Fin 16,
      ADC_REF y.val < 256 ∧
      ADC_REF y.val &&& 0xC6 = ADC_REF y.val ∧
      (ADC_REF y.val >>> 6) &&& 0x03 = y.val &&& 0x03 ∧
      (ADC_REF y.val >>> 1) &&& 0x03 = y.val >>> 2 ∧
      (((ADC_REF y.val >>> 6) &&& 0x03) ||| ((ADC_REF y.val <<< 1) &&& 0x0C)) = y.val := by
    decide
  obtain ⟨h1, h2, h3, h4, h5⟩ := hall ⟨x, hx⟩
  exact ⟨h1, h2, h3, h4, h5, by decide, by decide⟩

theorem adc_ref_encoding_witness :
    (7 : Nat) < 16 ∧ ADC_REF 7 < 256 ∧ ADC_REF 7 &&& 0xC6 = ADC_REF 7 ∧
      (((ADC_REF 7 >>> 6) &&& 0x03) ||| ((ADC_REF 7 <<< 1) &&& 0x0C)) = 7 :=
  ⟨by decide, (adc_ref_encoding 7 (by decide)).1, (adc_ref_encoding 7 (by decide)).2.1,
    (adc_ref_encoding 7 (by decide)).2.2.2.2.1⟩

/-- C12: each of the three per-pin tables has exactly `NUM_DIGITAL_PINS = 16`
entries, so a lookup at index `p` yields an entry exactly when `p < 16`: it never
fails on `0..15` and no table has an entry at an index from 16 up. -/
theorem tables_have_one_entry_per_pin (k : CoreDefs) (p : Nat) :
    ((digital_pin_to_port_PGM k).length = NUM_DIGITAL_PINS ∧
      digital_pin_to_bit_mask_PGM.length = NUM_DIGITAL_PINS ∧
      (digital_pin_to_timer_PGM k).length = NUM_DIGITAL_PINS) ∧
    NUM_DIGITAL_PINS = 16 ∧
    (p < NUM_DIGITAL_PINS ↔ ((digital_pin_to_port_PGM k)[p]?).isSome = true) ∧
    (p < NUM_DIGITAL_PINS ↔ (digital_pin_to_bit_mask_PGM[p]?).isSome = true) ∧
    (p < NUM_DIGITAL_PINS ↔ ((digital_pin_to_timer_PGM k)[p]?).isSome = true) ∧
    (NUM_DIGITAL_PINS ≤ p ↔ (digital_pin_to_port_PGM k)[p]? = none) ∧
    (NUM_DIGITAL_PINS ≤ p ↔ digital_pin_to_bit_mask_PGM[p]? = none) ∧
    (NUM_DIGITAL_PINS ≤ p ↔ (digital_pin_to_timer_PGM k)[p]? = none) := by
  have hport : (digital_pin_to_port_PGM k).length = NUM_DIGITAL_PINS := rfl
  have hmask : digital_pin_to_bit_mask_PGM.length = NUM_DIGITAL_PINS := rfl
  have htimer : (digital_pin_to_timer_PGM k).length = NUM_DIGITAL_PINS := rfl
  have hsome : ∀ (xs : List Nat), xs.length = NUM_DIGITAL_PINS →
      (p < NUM_DIGITAL_PINS ↔ (xs[p]?).isSome = true) := by
    intro xs hlen
    rw [← hlen]
    constructor
    · intro h
      rw [List.getElem?_eq_getElem h]
      rfl
    · intro h
      by_contra hcon
      rw [List.getElem?_eq_none_iff.mpr (Nat.le_of_not_lt hcon)] at h
      cases h
  have hnone : ∀ (xs : List Nat), xs.length = NUM_DIGITAL_PINS →
      (NUM_DIGITAL_PINS ≤ p ↔ xs[p]? = none) := by
    intro xs hlen
    rw [← hlen]
    exact List.getElem?_eq_none_iff.symm
  exact ⟨⟨hport, hmask, htimer⟩, rfl, hsome _ hport, hsome _ hmask, hsome _ htimer,
    hnone _ hport, hnone _ hmask, hnone _ htimer⟩

/-- C13: the numbering runs PA0..PA7 then PB0..PB7: `PIN_PAn = n` and
`PIN_PBn = 8 + n` for `n` in `0..7`, and for a valid pin index `p` the port entry is
`PA` below 8 and `PB` from 8 up, and the bit-mask entry is `1 << (p mod 8)`, a value
whose only set bit is bit `p mod 8`. -/
theorem pins_run_straight_through (k : CoreDefs) (p : Nat) (hp : p < NUM_DIGITAL_PINS) :
    [PIN_PA0, PIN_PA1, PIN_PA2, PIN_PA3, PIN_PA4, PIN_PA5, PIN_PA6, PIN_PA7]
      = (List.range 8).map (fun n => (n : Int)) ∧
    [PIN_PB0, PIN_PB1, PIN_PB2, PIN_PB3, PIN_PB4, PIN_PB5, PIN_PB6, PIN_PB7]
      = (List.range 8).map (fun n => (8 : Int) + n) ∧
    (digital_pin_to_port_PGM k)[p]? = some (if p < 8 then k.PA else k.PB) ∧
    digital_pin_to_bit_mask_PGM[p]? = some ((1 : Nat) <<< (p % 8)) ∧
    (∀ i : Nat, ((1 : Nat) <<< (p % 8)).testBit i = true ↔ i = p % 8) := by
  simp only [NUM_DIGITAL_PINS] at hp
  refine ⟨by decide, by decide, port_entry k p hp, bit_mask_entry p hp, ?_⟩
  intro i
  rw [Nat.one_shiftLeft, Nat.testBit_two_pow, decide_eq_true_iff]
  exact eq_comm

theorem pins_run_straight_through_witness :
    (12 : Nat) < NUM_DIGITAL_PINS ∧
      (digital_pin_to_port_PGM sampleDefs)[12]? = some sampleDefs.PB ∧
      digital_pin_to_bit_mask_PGM[12]? = some 16 :=
  ⟨by decide, (pins_run_straight_through sampleDefs 12 (by decide)).2.2.1,
    (pins_run_straight_through sampleDefs 12 (by decide)).2.2.2.1⟩

/-- C14, as stated, fails: pin 8 is a valid pin index for which `digitalPinHasPWM`
is true, and it carries no `*` in the pinout diagram; so the marked pins are not
exactly the pins with PWM. -/
theorem pwm_marks_miss_pin_8 :
    (8 : Nat) < NUM_DIGITAL_PINS ∧ digitalPinHasPWM 8 = true ∧ 8 ∉ pwmMarkedPins ∧
    ¬ (∀ p : Nat, p < NUM_DIGITAL_PINS →
        (p ∈ pwmMarkedPins ↔ digitalPinHasPWM (p : Int) = true)) := by
  refine ⟨by decide, by decide, by decide, ?_⟩
  intro h
  have h8 := (h 8 (by decide)).mpr (by decide)
  revert h8
  decide

/-- C14, amended: on a valid pin index `digitalPinHasPWM` is true exactly for pin 2
and the pins 8 to 15; the pins marked `*` in the pinout diagram (2, 11 and 14) are
among them. -/
theorem pwm_marks_subset_of_pwm_pins (p : Nat) (hp : p < NUM_DIGITAL_PINS) :
    (digitalPinHasPWM (p : Int) = true ↔ (p = 2 ∨ 8 ≤ p)) ∧
    (p ∈ pwmMarkedPins → digitalPinHasPWM (p : Int) = true) ∧
    pwmMarkedPins = [2, 11, 14] := by
  simp only [NUM_DIGITAL_PINS] at hp
  have hall : ∀ q : Fin 16,
      (digitalPinHasPWM (q.val : Int) = true ↔ (q.val = 2 ∨ 8 ≤ q.val)) ∧
      (q.val ∈ pwmMarkedPins → digitalPinHasPWM (q.val : Int) = true) := by
    decide
  exact ⟨(hall ⟨p, hp⟩).1, (hall ⟨p, hp⟩).2, rfl⟩

theorem pwm_marks_subset_of_pwm_pins_witness :
    (11 : Nat) < NUM_DIGITAL_PINS ∧ 11 ∈ pwmMarkedPins ∧ digitalPinHasPWM 11 = true :=
  ⟨by decide, by decide,
    (pwm_marks_subset_of_pwm_pins 11 (by decide)).2.1 (by decide)⟩

/-- C15: each USI pin constant lies on port B and its bit-mask entry is `1` shifted
by the matching USI bit constant: `PIN_USI_DI` with `USI_DI_BIT = PINB0 = 0`,
`PIN_USI_DO` with `USI_DO_BIT = PINB1 = 1` and `PIN_USI_SCK` with
`USI_CLOCK_BIT = PINB2 = 2`; the USI data registers are those of port B. -/
theorem usi_pins_match_usi_bits (k : CoreDefs) :
    ((PIN_USI_DI.toNat : Int) = PIN_USI_DI ∧
      (digital_pin_to_port_PGM k)[PIN_USI_DI.toNat]? = some k.PB ∧
      digital_pin_to_bit_mask_PGM[PIN_USI_DI.toNat]? = some ((1 : Nat) <<< USI_DI_BIT)) ∧
    ((PIN_USI_DO.toNat : Int) = PIN_USI_DO ∧
      (digital_pin_to_port_PGM k)[PIN_USI_DO.toNat]? = some k.PB ∧
      digital_pin_to_bit_mask_PGM[PIN_USI_DO.toNat]? = some ((1 : Nat) <<< USI_DO_BIT)) ∧
    ((PIN_USI_SCK.toNat : Int) = PIN_USI_SCK ∧
      (digital_pin_to_port_PGM k)[PIN_USI_SCK.toNat]? = some k.PB ∧
      digital_pin_to_bit_mask_PGM[PIN_USI_SCK.toNat]? = some ((1 : Nat) <<< USI_CLOCK_BIT)) ∧
    (USI_DATA_DDR = IOReg.DDRB ∧ USI_DATA_PORT = IOReg.PORTB ∧ USI_DATA_PIN = IOReg.PINB) ∧
    (USI_DI_BIT = PINB0 ∧ PINB0 = 0) ∧ (USI_DO_BIT = PINB1 ∧ PINB1 = 1) ∧
    (USI_CLOCK_BIT = PINB2 ∧ PINB2 = 2) := by
  refine ⟨⟨by decide, rfl, by decide⟩, ⟨by decide, rfl, by decide⟩,
    ⟨by decide, rfl, by decide⟩, ⟨rfl, rfl, rfl⟩, ⟨rfl, rfl⟩, ⟨rfl, rfl⟩, ⟨rfl, rfl⟩⟩

/-- C16: `digitalPinToAnalogInput` is a bijection from the analog-capable pins
`0..7, 13, 14, 15` onto the channels `0..10`: a valid pin with a non-sentinel result
is one of those pins, its channel lies in `0..10`, `analogInputToDigitalPin` takes
the channel back to the pin, and two such pins with the same channel are equal;
exactly `NUM_ANALOG_INPUTS = 11` of the 16 valid pins are such pins and their
channels, in pin order, are `0, 1, .., 10`. -/
theorem pin_to_channel_bijection (p q : Nat) (hp : p < NUM_DIGITAL_PINS)
    (hq : q < NUM_DIGITAL_PINS) (hap : digitalPinToAnalogInput (p : Int) ≠ -1)
    (haq : digitalPinToAnalogInput (q : Int) ≠ -1) :
    (p < 8 ∨ 13 ≤ p) ∧
    (0 ≤ digitalPinToAnalogInput (p : Int) ∧
      digitalPinToAnalogInput (p : Int) < NUM_ANALOG_INPUTS) ∧
    analogInputToDigitalPin (digitalPinToAnalogInput (p : Int)) = (p : Int) ∧
    (digitalPinToAnalogInput (p : Int) = digitalPinToAnalogInput (q : Int) → p = q) ∧
    (List.range NUM_DIGITAL_PINS).filter (fun r => decide (digitalPinToAnalogInput (r : Int) ≠ -1))
      = [0, 1, 2, 3, 4, 5, 6, 7, 13, 14, 15] ∧
    ((List.range NUM_DIGITAL_PINS).filter
      (fun r => decide (digitalPinToAnalogInput (r : Int) ≠ -1))).length = NUM_ANALOG_INPUTS ∧
    ((List.range NUM_DIGITAL_PINS).filter
      (fun r => decide (digitalPinToAnalogInput (r : Int) ≠ -1))).map
        (fun r => digitalPinToAnalogInput (r : Int))
      = (List.range NUM_ANALOG_INPUTS).map (fun c => (c : Int)) := by
  have back : ∀ r : Nat, r < 16 → digitalPinToAnalogInput (r : Int) ≠ -1 →
      (r < 8 ∨ 13 ≤ r) ∧
      (0 ≤ digitalPinToAnalogInput (r : Int) ∧ digitalPinToAnalogInput (r : Int) < 11) ∧
      analogInputToDigitalPin (digitalPinToAnalogInput (r : Int)) = (r : Int) := by
    intro r hr har
    unfold digitalPinToAnalogInput at har ⊢
    unfold analogInputToDigitalPin
    split_ifs at har ⊢ <;> omega
  simp only [NUM_DIGITAL_PINS] at hp hq
  obtain ⟨hp1, hp2, hp3⟩ := back p hp hap
  obtain ⟨_, _, hq3⟩ := back q hq haq
  refine ⟨hp1, by simpa [NUM_ANALOG_INPUTS] using hp2, hp3, ?_, by decide, by decide, by decide⟩
  intro heq
  have hpq : (p : Int) = (q : Int) := by
    rw [← hp3, ← hq3, heq]
  exact Int.ofNat.inj hpq

theorem pin_to_channel_bijection_witness :
    (13 : Nat) < NUM_DIGITAL_PINS ∧ (14 : Nat) < NUM_DIGITAL_PINS ∧
      digitalPinToAnalogInput 13 ≠ -1 ∧ digitalPinToAnalogInput 14 ≠ -1 ∧
      analogInputToDigitalPin (digitalPinToAnalogInput 13) = 13 ∧
      (digitalPinToAnalogInput 13 = digitalPinToAnalogInput 14 → 13 = 14) :=
  ⟨by decide, by decide, by decide, by decide,
    (pin_to_channel_bijection 13 14 (by decide) (by decide) (by decide) (by decide)).2.2.1,
    (pin_to_channel_bijection 13 14 (by decide) (by decide) (by decide) (by decide)).2.2.2.1⟩

/-- C17: `digitalPinToAnalogInput` reports a real channel only for a pin: for every
integer `p`, a result in `0..10` forces `p` into `0..15`; and for every `p` from 16
up the result is `p - 5`, which is at least 11 and is not the sentinel `-1`. -/
theorem channel_only_for_valid_pin (p : Int) :
    ((0 ≤ digitalPinToAnalogInput p ∧ digitalPinToAnalogInput p < NUM_ANALOG_INPUTS) →
      (0 ≤ p ∧ p < NUM_DIGITAL_PINS)) ∧
    ((NUM_DIGITAL_PINS : Int) ≤ p →
      (digitalPinToAnalogInput p = p - 5 ∧ (NUM_ANALOG_INPUTS : Int) ≤ digitalPinToAnalogInput p ∧
        digitalPinToAnalogInput p ≠ -1)) ∧
    NUM_DIGITAL_PINS = 16 ∧ NUM_ANALOG_INPUTS = 11 := by
  refine ⟨?_, ?_, rfl, rfl⟩
  · intro h
    simp only [NUM_ANALOG_INPUTS, NUM_DIGITAL_PINS] at h ⊢
    unfold digitalPinToAnalogInput at h
    split_ifs at h <;> omega
  · intro h
    simp only [NUM_ANALOG_INPUTS, NUM_DIGITAL_PINS] at h ⊢
    unfold digitalPinToAnalogInput
    split_ifs <;> omega

theorem channel_only_for_valid_pin_witness :
    (NUM_DIGITAL_PINS : Int) ≤ 16 ∧ digitalPinToAnalogInput 16 = 16 - 5 ∧
      (NUM_ANALOG_INPUTS : Int) ≤ digitalPinToAnalogInput 16 ∧
      ((0 : Int) ≤ 15 ∧ (15 : Int) < NUM_DIGITAL_PINS) :=
  ⟨by decide, ((channel_only_for_valid_pin 16).2.1 (by decide)).1,
    ((channel_only_for_valid_pin 16).2.1 (by decide)).2.1,
    (channel_only_for_valid_pin 15).1 (by decide)⟩

end TinyX7
